import Mathlib

/-
Shallow embedding of the texture synthesis and compositing core of augraphy:
`src/augraphy/base/paperfactory.py` (class PaperFactory) and
`src/augraphy/utilities/texturegenerator.py` (class TextureGenerator).

Modelling conventions:
shared with all definitions below.
- A texture is a grid of 8-bit samples.  We model a single sample plane as a
  structure `Img` carrying its height, width and a total pixel function
  `Nat -> Nat -> Nat`; the uint8 range constraint is the predicate `Uint8`.
  The quilting path of the source converts a grayscale texture to BGR on
  entry (cv2.COLOR_GRAY2BGR replicates the plane), and BGR2HSV of a
  replicated-gray image yields hue = 0, saturation = 0, value = the gray
  sample, so the single-plane model is exact for grayscale inputs.
- Python floats are modelled as exact rationals; `int(...)` on a nonnegative
  value is `Int.floor`; `np.uint8` of a nonnegative float is truncation
  followed by reduction mod 256.
- `random.uniform a b` is `a + (b - a) * u` for a draw `u` with
  `0 <= u < 1` (this is the CPython implementation of uniform).
- `np.random.randint n` raises ValueError when `n <= 0`, otherwise returns a
  value in `[0, n)`; it is modelled as `npRandint n u = none` when `n <= 0`
  and `some (u % n)` otherwise, for an externally supplied draw `u`.
- Operations of external libraries that the claims do not inspect (the FFT
  itself, OverlayBuilder, ColorPaper) are abstracted at their call boundary;
  each such point is documented at the definition that models it.
-/

namespace Augraphy

/-- A single plane of an 8-bit image: height, width and a total pixel map.
Out-of-range coordinates are given harmless values by totality; theorems
quantify over in-range behaviour or assume the `Uint8` bound totally. -/
structure Img where
  h : Nat
  w : Nat
  px : Nat → Nat → Nat

/-- All samples of the plane are 8-bit (the data-model invariant of the
spec, stated for every coordinate of the total pixel map). -/
def Uint8 (img : Img) : Prop := ∀ y x, img.px y x ≤ 255

/-- The ps x ps sub-block of a plane starting at row y, column x
(`texture[y : y + ps, x : x + ps]`). -/
def cropImg (img : Img) (y x ps : Nat) : Img :=
  ⟨ps, ps, fun i j => img.px (y + i) (x + j)⟩

/-- Sum of a ps x ps block of a sample plane. -/
def blockSum (f : Nat → Nat → Nat) (y x ps : Nat) : Nat :=
  Finset.sum (Finset.range ps) (fun i =>
    Finset.sum (Finset.range ps) (fun j => f (y + i) (x + j)))

/-- Mean of a ps x ps block (`np.mean` of the sliced channel), as an exact
rational. -/
def blockMean (f : Nat → Nat → Nat) (y x ps : Nat) : ℚ :=
  (blockSum f y x ps : ℚ) / ((ps : ℚ) * (ps : ℚ))

/-- Model of `np.random.randint n` for a single draw: ValueError (none) when
the exclusive bound is nonpositive, otherwise a value in `[0, n)` obtained
from the ambient draw `u`. -/
def npRandint (bound : Int) (u : Nat) : Option Nat :=
  if bound ≤ 0 then none else some (u % bound.toNat)

/-- Model of CPython `random.uniform a b`: `a + (b - a) * random()` where
`random()` is a draw in `[0, 1)`. -/
def pyUniform (a b u : ℚ) : ℚ := a + (b - a) * u

/- ------------------------------------------------------------------ -/
/- PaperFactory.__call__, texture blending block (paperfactory.py
   lines 205-257), for claim C1.                                       -/
/- ------------------------------------------------------------------ -/

/-- The blend-mode identifiers of the `blend_method == "random"` choice
(paperfactory.py lines 225-242). -/
def blendMethods : List String :=
  ["ink_to_paper", "min", "max", "mix", "normal", "lighten", "darken",
   "screen", "dodge", "multiply", "divide", "grain_merge", "overlay", "FFT"]

/-- The arguments handed to the external OverlayBuilder compositor
(paperfactory.py lines 247-255): blend method, foreground texture (second
constructor argument) and background texture (third constructor argument). -/
structure OverlayCall where
  method : String
  foreground : Img
  background : Img

/-- cv2.resize restricted to the case reached on paperfactory.py line 218,
where the target size `(texture.shape[1], texture.shape[0])` is the source
image's own shape: resizing an image to its own size is an identity copy
(INTER_AREA at unit scale averages single-pixel blocks). -/
def cv2ResizeSelf (img : Img) : Img := img

/-- Embedding of the texture blending block of PaperFactory.__call__
(paperfactory.py lines 205-257).  `texture` is the first texture;
`acquired` is the second texture obtained on lines 208-215 by the same
acquisition path (retrieve_texture when the library is non-empty, otherwise
generate_random_texture), after the channel reconciliation of lines
210-213, which in the single-plane model is the identity.  Line 218 then
computes `new_texture = cv2.resize(texture, (texture.shape[1],
texture.shape[0]))` - note the source operand is `texture`, not the
acquired second texture - and lines 247-257 hand `(blend_method,
new_texture, texture)` to OverlayBuilder.  `uMethod` is the draw of the
random blend-method choice. -/
def paperFactoryBlend (texture acquired : Img) (blendMethodCfg : String)
    (uMethod : Nat) : OverlayCall :=
  let newTexture := cv2ResizeSelf texture
  let method :=
    if blendMethodCfg = "random" then
      blendMethods.getD (uMethod % blendMethods.length) "ink_to_paper"
    else blendMethodCfg
  { method := method, foreground := newTexture, background := texture }

/-- C1.  The spec says the second texture, resized to the first texture's
shape, is handed (with the first texture) to the external Compositor.  In
the code the resize on paperfactory.py line 218 reads from `texture`
instead of `new_texture`, so the texture handed to OverlayBuilder as
foreground is always the first texture itself and the acquired second
texture has no effect whatsoever on the call: the blend merges the first
texture with itself.  The comment "resize for size consistency between
both textures" and the dead channel reconciliation of lines 210-213 show
the intent was to resize the acquired texture, so this is a slip in the
code, not in the spec. -/
theorem C1_blend_discards_second_texture :
    ∀ (texture acquired : Img) (cfg : String) (uMethod : Nat),
      (paperFactoryBlend texture acquired cfg uMethod).foreground = texture ∧
      paperFactoryBlend texture acquired cfg uMethod =
        paperFactoryBlend texture texture cfg uMethod := by
  intro texture acquired cfg uMethod
  exact ⟨rfl, rfl⟩

/- ------------------------------------------------------------------ -/
/- PaperFactory.__call__, colorization block (paperfactory.py
   lines 259-277), for claim C4.                                       -/
/- ------------------------------------------------------------------ -/

/-- The hue draw of paperfactory.py lines 264-265:
`random.randint(10, 255 - 10)`, an inclusive draw with 236 outcomes. -/
def drawHue (u : Nat) : ℤ := 10 + (u % 236 : Nat)

/-- The saturation draw of paperfactory.py lines 268-269:
`random.randint(50 + 10, 205 - 10)`, an inclusive draw with 136 outcomes. -/
def drawSat (u : Nat) : ℤ := 60 + (u % 136 : Nat)

/-- Observable outcome of the colorization block: the number of numpy array
dimensions of the resulting texture (2 for grayscale, 3 for color), whether
the external ColorPaper colorizer was invoked, and with which hue and
saturation windows. -/
structure ColorStepOut where
  ndim : Nat
  colorizerApplied : Bool
  hueRange : List ℤ
  satRange : List ℤ

/-- Embedding of the colorization block of PaperFactory.__call__
(paperfactory.py lines 259-277).  `ndim` is `len(texture.shape)` of the
incoming texture.  When color is enabled the conversion to 3 channels, the
hue and saturation draws and the ColorPaper invocation all sit inside the
`if len(texture.shape) < 3` branch; an already 3-dimensional texture is
left untouched.  When color is disabled a 3-dimensional texture is
collapsed with cv2.COLOR_BGR2GRAY. -/
def paperFactoryColorStep (enableColor : Bool) (ndim : Nat)
    (uHue uSat : Nat) : ColorStepOut :=
  if enableColor then
    if ndim < 3 then
      { ndim := 3
        colorizerApplied := true
        hueRange := [drawHue uHue - 10, drawHue uHue + 10]
        satRange := [drawSat uSat - 10, drawSat uSat + 10] }
    else
      { ndim := ndim, colorizerApplied := false, hueRange := [], satRange := [] }
  else
    if ndim > 2 then
      { ndim := 2, colorizerApplied := false, hueRange := [], satRange := [] }
    else
      { ndim := ndim, colorizerApplied := false, hueRange := [], satRange := [] }

/-- C4 counterexample.  The claim says that whenever colorization is
enabled the external colorizer is applied regardless of the incoming
channel count.  A texture that is already 3-channel (ndim = 3) enters the
colorization block with color enabled and the colorizer is not invoked,
because the whole colorization body sits inside the
`if len(texture.shape) < 3` branch (paperfactory.py lines 260-274). -/
theorem C4_counterexample_color_enabled_3channel :
    (paperFactoryColorStep true 3 0 0).colorizerApplied = false := rfl

/-- C4 amended.  When colorization is enabled and the incoming texture is
single-channel (ndim = 2) it is converted to 3 channels and the colorizer
is applied with windows of plus/minus 10 around a hue drawn from [10, 245]
and plus/minus 10 around a saturation drawn from [60, 195]; when
colorization is enabled and the texture is already 3-channel nothing
happens; when colorization is disabled a 3-channel texture is collapsed to
a single channel and a single-channel texture is left as is, with no
colorizer invocation in either case. -/
theorem C4_colorize_only_single_channel :
    ∀ (uHue uSat : Nat),
      (paperFactoryColorStep true 2 uHue uSat).colorizerApplied = true ∧
      (paperFactoryColorStep true 2 uHue uSat).ndim = 3 ∧
      (paperFactoryColorStep true 2 uHue uSat).hueRange =
        [drawHue uHue - 10, drawHue uHue + 10] ∧
      (paperFactoryColorStep true 2 uHue uSat).satRange =
        [drawSat uSat - 10, drawSat uSat + 10] ∧
      10 ≤ drawHue uHue ∧ drawHue uHue ≤ 245 ∧
      60 ≤ drawSat uSat ∧ drawSat uSat ≤ 195 ∧
      paperFactoryColorStep true 3 uHue uSat =
        { ndim := 3, colorizerApplied := false, hueRange := [], satRange := [] } ∧
      (paperFactoryColorStep false 3 uHue uSat).ndim = 2 ∧
      (paperFactoryColorStep false 3 uHue uSat).colorizerApplied = false ∧
      (paperFactoryColorStep false 2 uHue uSat).ndim = 2 ∧
      (paperFactoryColorStep false 2 uHue uSat).colorizerApplied = false := by
  intro uHue uSat
  have hh : uHue % 236 < 236 := Nat.mod_lt _ (by omega)
  have hs : uSat % 136 < 136 := Nat.mod_lt _ (by omega)
  refine ⟨rfl, rfl, rfl, rfl, ?_, ?_, ?_, ?_, rfl, rfl, rfl, rfl, rfl⟩
  · simp only [drawHue]; omega
  · simp only [drawHue]; omega
  · simp only [drawSat]; omega
  · simp only [drawSat]; omega

/- ------------------------------------------------------------------ -/
/- PaperFactory.check_paper_edges (paperfactory.py lines 302-392),
   for claim C2.                                                       -/
/- ------------------------------------------------------------------ -/

/-- A contour as consumed by the decision logic of check_paper_edges: its
enclosed area (`cv2.contourArea`, a float, modelled as an exact rational)
and the four corner points of its minimum-area rotated rectangle
(`cv2.boxPoints(cv2.minAreaRect(contour))` cast with np.int0).  Both are
produced by the external cv2 geometry routines; the decision logic of
lines 347-388 consumes only these two pieces of data. -/
structure Contour where
  area : ℚ
  corners : List (ℤ × ℤ)

/-- Area-descending comparison used to model
`list(np.argsort(areas)); area_indexs.reverse()` (lines 350-351). -/
def contourGE (c d : Contour) : Prop := d.area ≤ c.area

instance : DecidableRel contourGE :=
  fun c d => inferInstanceAs (Decidable (d.area ≤ c.area))

instance : IsTotal Contour contourGE := ⟨fun c d => le_total d.area c.area⟩

instance : IsTrans Contour contourGE :=
  ⟨fun _ _ _ hab hbc => le_trans hbc hab⟩

/-- The contour list in descending area order (ties may be ordered either
way by np.argsort plus reverse; the decision below is tie-insensitive). -/
def sortContoursDesc (l : List Contour) : List Contour :=
  List.insertionSort contourGE l

/-- The contour-area threshold `min_area = ysize * xsize * 0.65` of
line 354, as an exact rational. -/
def minAreaThresh (ysize xsize : Nat) : ℚ :=
  (ysize : ℚ) * (xsize : ℚ) * (65 / 100)

/-- The axis-aligned crop bounds of lines 376-385: sort the four corner
x coordinates and the four corner y coordinates ascending and take the
2nd and 3rd entries on each axis, giving (y_top, y_bottom, x_left,
x_right). -/
def cropBoundsOf (corners : List (ℤ × ℤ)) : ℤ × ℤ × ℤ × ℤ :=
  let xlist := List.insertionSort (fun a b : ℤ => a ≤ b) (corners.map Prod.fst)
  let ylist := List.insertionSort (fun a b : ℤ => a ≤ b) (corners.map Prod.snd)
  (ylist.getD 1 0, ylist.getD 2 0, xlist.getD 1 0, xlist.getD 2 0)

/-- The contour walk of check_paper_edges (paperfactory.py lines 357-373),
over the area-descending contour list.  The Python for-loop either breaks
or returns inside its first iteration, so the translation needs no
recursive case: with a single contour (i is the last index) the contour is
accepted iff its area reaches min_area, and with two or more contours the
first (largest) is accepted iff its area reaches min_area AND the second
does not (`areas[i] >= min_area and areas[i + 1] < min_area`); every other
combination takes an else branch that returns the uncropped texture
(modelled as none). -/
def contourWalk (minArea : ℚ) : List Contour → Option Contour
  | [] => none
  | [c] => if minArea ≤ c.area then some c else none
  | c1 :: c2 :: _ =>
      if minArea ≤ c1.area ∧ c2.area < minArea then some c1 else none

/-- The crop decision of check_paper_edges (paperfactory.py lines
344-392), given the contours found by the external cv2.findContours:
`some bounds` when the texture is cropped to `bounds`, `none` when the
original texture is returned unchanged (zero contours, or the walk takes a
return branch). -/
def checkPaperEdgesDecision (contours : List Contour) (ysize xsize : Nat) :
    Option (ℤ × ℤ × ℤ × ℤ) :=
  if contours.length > 0 then
    (contourWalk (minAreaThresh ysize xsize) (sortContoursDesc contours)).map
      (fun c => cropBoundsOf c.corners)
  else none

/-- The corner list of a 100 x 100 full-frame box, for the C2
counterexample. -/
def sqCorners : List (ℤ × ℤ) := [(0, 0), (99, 0), (99, 99), (0, 99)]

/-- C2 counterexample.  The claim says that whenever some contour's area is
at least 65 percent of the image area the walk accepts a candidate and the
texture is cropped.  On a 100 x 100 texture whose (eroded, binarised) mask
yields two nested contours of area 7000 each - a frame shape, whose outer
and inner boundaries can both enclose at least 65 percent of the image -
both areas reach the 6500 threshold, yet the walk takes the else branch of
line 373 (`areas[0] >= min_area` holds but `areas[1] < min_area` fails)
and returns the texture uncropped. -/
theorem C2_counterexample_two_large_contours :
    (∃ c ∈ [Contour.mk 7000 sqCorners, Contour.mk 7000 sqCorners],
        minAreaThresh 100 100 ≤ c.area) ∧
      checkPaperEdgesDecision
        [Contour.mk 7000 sqCorners, Contour.mk 7000 sqCorners] 100 100 =
        none := by
  constructor
  · refine ⟨Contour.mk 7000 sqCorners, by simp, ?_⟩
    norm_num [minAreaThresh]
  · have hsort :
        sortContoursDesc [Contour.mk 7000 sqCorners, Contour.mk 7000 sqCorners] =
          [Contour.mk 7000 sqCorners, Contour.mk 7000 sqCorners] := by
      simp [sortContoursDesc, List.insertionSort, List.orderedInsert, contourGE]
    simp only [checkPaperEdgesDecision, hsort, contourWalk]
    norm_num [minAreaThresh]

/-- C2 amended.  check_paper_edges returns the input unchanged exactly when
the number of contours whose area reaches the 65 percent threshold is
different from one: zero contours, a largest contour below the threshold,
but also two or more contours at or above the threshold all leave the
texture uncropped; the crop happens exactly when precisely one contour
reaches the threshold, and then the crop bounds are obtained from a
maximal-area contour by sorting the four corner x and y coordinates of its
minimum-area rotated rectangle and taking the 2nd and 3rd values on each
axis. -/
theorem C2_crop_iff_exactly_one_large_contour :
    ∀ (contours : List Contour) (ysize xsize : Nat),
      ((checkPaperEdgesDecision contours ysize xsize).isSome ↔
        contours.countP
          (fun c => decide (minAreaThresh ysize xsize ≤ c.area)) = 1) ∧
      (∀ b, checkPaperEdgesDecision contours ysize xsize = some b →
        ∃ c, c ∈ contours ∧ b = cropBoundsOf c.corners ∧
          ∀ d, d ∈ contours → d.area ≤ c.area) := by
  intro contours ysize xsize
  set T := minAreaThresh ysize xsize with hT
  have hperm : List.Perm (sortContoursDesc contours) contours :=
    List.perm_insertionSort contourGE contours
  have hsorted : List.Sorted contourGE (sortContoursDesc contours) :=
    List.sorted_insertionSort contourGE contours
  have hcount :
      contours.countP (fun c => decide (T ≤ c.area)) =
        (sortContoursDesc contours).countP (fun c => decide (T ≤ c.area)) :=
    (hperm.countP_eq _).symm
  have hmem : ∀ c, c ∈ sortContoursDesc contours → c ∈ contours :=
    fun c hc => hperm.mem_iff.mp hc
  rcases hcon : contours with _ | cs
  · constructor
    · simp [checkPaperEdgesDecision]
    · intro b hb
      simp [checkPaperEdgesDecision] at hb
  · rw [← hcon]
    have hlen : contours.length > 0 := by rw [hcon]; simp
    have hdec : checkPaperEdgesDecision contours ysize xsize =
        (contourWalk T (sortContoursDesc contours)).map
          (fun c => cropBoundsOf c.corners) := by
      rw [checkPaperEdgesDecision, if_pos hlen, hT]
    rcases hs : sortContoursDesc contours with _ | ⟨c1, t⟩
    · exfalso
      have : contours = [] := (hs ▸ hperm).symm.eq_nil
      rw [hcon] at this; simp at this
    · rcases t with _ | ⟨c2, t2⟩
      · -- single contour
        constructor
        · rw [hdec, hcount, hs, contourWalk]
          by_cases h1 : T ≤ c1.area
          · simp [h1]
          · simp [h1]
        · intro b hb
          rw [hdec, hs, contourWalk] at hb
          by_cases h1 : T ≤ c1.area
          · rw [if_pos h1] at hb
            simp only [Option.map_some', Option.some.injEq] at hb
            refine ⟨c1, hmem c1 (by rw [hs]; simp), hb.symm, ?_⟩
            intro d hd
            have hd' : d ∈ sortContoursDesc contours := hperm.mem_iff.mpr hd
            rw [hs] at hd'
            simp at hd'
            rw [hd']
          · rw [if_neg h1] at hb
            simp at hb
      · -- two or more contours
        have h12 : c2.area ≤ c1.area := by
          have := List.rel_of_sorted_cons (hs ▸ hsorted) c2 (by simp)
          exact this
        have htail : ∀ d ∈ t2, d.area ≤ c2.area := by
          intro d hd
          have hsted2 : List.Sorted contourGE (c2 :: t2) :=
            (hs ▸ hsorted).tail
          exact List.rel_of_sorted_cons hsted2 d hd
        constructor
        · rw [hdec, hcount, hs, contourWalk]
          by_cases h1 : T ≤ c1.area ∧ c2.area < T
          · rw [if_pos h1]
            have hc2 : ¬ T ≤ c2.area := not_le.mpr h1.2
            have ht2 : t2.countP (fun c => decide (T ≤ c.area)) = 0 := by
              rw [List.countP_eq_zero]
              intro d hd
              simp only [decide_eq_true_eq]
              intro hTd
              exact absurd (le_trans hTd (htail d hd)) (not_le.mpr h1.2)
            simp [List.countP_cons, h1.1, hc2, ht2]
          · rw [if_neg h1]
            simp only [Option.map_none', Option.isSome_none, Bool.false_eq_true,
              false_iff]
            intro hcnt
            rcases not_and_or.mp h1 with h1a | h1b
            · -- largest below threshold: count is 0
              have hall : ∀ d ∈ c1 :: c2 :: t2, ¬ T ≤ d.area := by
                intro d hd hTd
                apply h1a
                rcases List.mem_cons.mp hd with h | h
                · exact h ▸ hTd
                · rcases List.mem_cons.mp h with h2 | h2
                  · exact le_trans (h2 ▸ hTd) h12
                  · exact le_trans (le_trans hTd (htail d h2)) h12
              rw [List.countP_eq_zero.mpr (by intro d hd; simpa using hall d hd)]
                at hcnt
              simp at hcnt
            · -- second also at threshold: count is at least 2
              have hc2T : T ≤ c2.area := not_lt.mp h1b
              have hc1T : T ≤ c1.area := le_trans hc2T h12
              rw [List.countP_cons, List.countP_cons] at hcnt
              simp [hc1T, hc2T] at hcnt
        · intro b hb
          rw [hdec, hs, contourWalk] at hb
          by_cases h1 : T ≤ c1.area ∧ c2.area < T
          · rw [if_pos h1] at hb
            simp only [Option.map_some', Option.some.injEq] at hb
            refine ⟨c1, hmem c1 (by rw [hs]; simp), hb.symm, ?_⟩
            intro d hd
            have hd' : d ∈ sortContoursDesc contours := hperm.mem_iff.mpr hd
            rw [hs] at hd'
            rcases List.mem_cons.mp hd' with h | h
            · rw [h]
            · rcases List.mem_cons.mp h with h' | h'
              · exact h' ▸ h12
              · exact le_trans (htail d h') h12
          · rw [if_neg h1] at hb
            simp at hb

/-- C2 witness: a single contour of area 7000 on a 100 x 100 texture
clears the 6500 threshold, is the unique large contour, and the crop
decision picks its corner-sorted bounds. -/
theorem C2_crop_iff_witness :
    checkPaperEdgesDecision [Contour.mk 7000 sqCorners] 100 100 =
        some (cropBoundsOf sqCorners) ∧
      (∃ c, c ∈ [Contour.mk 7000 sqCorners] ∧
        cropBoundsOf sqCorners = cropBoundsOf c.corners ∧
        ∀ d, d ∈ [Contour.mk 7000 sqCorners] → d.area ≤ c.area) := by
  have hdec : checkPaperEdgesDecision [Contour.mk 7000 sqCorners] 100 100 =
      some (cropBoundsOf sqCorners) := by
    have hsort : sortContoursDesc [Contour.mk 7000 sqCorners] =
        [Contour.mk 7000 sqCorners] := by
      simp [sortContoursDesc, List.insertionSort, List.orderedInsert]
    simp only [checkPaperEdgesDecision, hsort, contourWalk]
    norm_num [minAreaThresh]
  exact ⟨hdec,
    (C2_crop_iff_exactly_one_large_contour [Contour.mk 7000 sqCorners]
      100 100).2 (cropBoundsOf sqCorners) hdec⟩

/- ------------------------------------------------------------------ -/
/- PaperFactory.resize (paperfactory.py lines 394-435) and
   PaperFactory.retrieve_texture (lines 70-104), for claims C5 and C3. -/
/- ------------------------------------------------------------------ -/

/-- The scale drawn in the zoom-out block of PaperFactory.resize
(paperfactory.py lines 409-415): the dominant (larger) of the two shrink
ratios is the lower endpoint of `random.uniform(ratio, 1.2)`. -/
def zoomScaleOut (th tw sh sw : ℤ) (u : ℚ) : ℚ :=
  if (sw : ℚ) / (tw : ℚ) < (sh : ℚ) / (th : ℚ) then
    pyUniform ((sh : ℚ) / (th : ℚ)) (6 / 5) u
  else
    pyUniform ((sw : ℚ) / (tw : ℚ)) (6 / 5) u

/-- The scale drawn in the zoom-in block of PaperFactory.resize
(paperfactory.py lines 424-430): `random.uniform(ratio, ratio + 1.5)` on
the dominant growth ratio. -/
def zoomScaleIn (th tw sh sw : ℤ) (u : ℚ) : ℚ :=
  if (sw : ℚ) / (tw : ℚ) < (sh : ℚ) / (th : ℚ) then
    pyUniform ((sh : ℚ) / (th : ℚ)) ((sh : ℚ) / (th : ℚ) + 3 / 2) u
  else
    pyUniform ((sw : ℚ) / (tw : ℚ)) ((sw : ℚ) / (tw : ℚ) + 3 / 2) u

/-- The zoom-out block of PaperFactory.resize (paperfactory.py lines
408-421): when the texture exceeds the target in either axis, resize to
`(int(texture_w * scale), int(texture_h * scale))`.  Dimension-level
embedding: the pair is (height, width) of the texture. -/
def zoomOutDims (th tw sh sw : ℤ) (u : ℚ) : ℤ × ℤ :=
  if sh < th ∨ sw < tw then
    (⌊(th : ℚ) * zoomScaleOut th tw sh sw u⌋, ⌊(tw : ℚ) * zoomScaleOut th tw sh sw u⌋)
  else (th, tw)

/-- The zoom-in block of PaperFactory.resize (paperfactory.py lines
423-433): when the (possibly shrunk) texture does not exceed the target in
some axis, resize by the drawn growth scale. -/
def zoomInDims (th tw sh sw : ℤ) (u : ℚ) : ℤ × ℤ :=
  if th ≤ sh ∨ tw ≤ sw then
    (⌊(th : ℚ) * zoomScaleIn th tw sh sw u⌋, ⌊(tw : ℚ) * zoomScaleIn th tw sh sw u⌋)
  else (th, tw)

/-- Dimension-level embedding of PaperFactory.resize (paperfactory.py
lines 394-435): the zoom-out block followed by the zoom-in block, with
`u1` and `u2` the two `random.uniform` draws.  (th, tw) is the texture's
(height, width), (sh, sw) the target shape. -/
def resizeDims (th tw sh sw : ℤ) (u1 u2 : ℚ) : ℤ × ℤ :=
  let p := zoomOutDims th tw sh sw u1
  zoomInDims p.1 p.2 sh sw u2

/-- Dimension-level embedding of PaperFactory.retrieve_texture
(paperfactory.py lines 70-104) after the rotation and the edge crop:
(th, tw) is the shape of the edge-cropped texture, (sh, sw) the target
image shape.  When the texture is strictly larger in both axes, lines
92-97 pick `start_y = random.randint(0, difference_y)` (inclusive; the
draw is `cy`) and slice `texture[start_y : start_y + shape[0], start_x :
start_x + shape[1]]`, whose per-axis length is `min(start + size, dim) -
start`; otherwise line 102 applies the resize logic and returns its result
directly - there is no further crop on this path. -/
def retrieveTextureDims (th tw sh sw cy cx : ℤ) (u1 u2 : ℚ) : ℤ × ℤ :=
  if sh < th ∧ sw < tw then
    (min (cy + sh) th - cy, min (cx + sw) tw - cx)
  else resizeDims th tw sh sw u1 u2

lemma pyUniform_ge_left {a b u : ℚ} (hu : 0 ≤ u) (hab : a ≤ b) :
    a ≤ pyUniform a b u := by
  have h : 0 ≤ (b - a) * u := mul_nonneg (by linarith) hu
  simp only [pyUniform]
  linarith

lemma pyUniform_ge_right {a b u : ℚ} (hu : u ≤ 1) (hba : b ≤ a) :
    b ≤ pyUniform a b u := by
  have h : (a - b) * (1 - u) ≥ 0 := mul_nonneg (by linarith) (by linarith)
  simp only [pyUniform]
  nlinarith

lemma floor_ge_target {t s : ℤ} {scale : ℚ} (ht : 0 < t)
    (h : (s : ℚ) / (t : ℚ) ≤ scale) : s ≤ ⌊(t : ℚ) * scale⌋ := by
  rw [Int.le_floor]
  have ht' : (0 : ℚ) < (t : ℚ) := by exact_mod_cast ht
  have := (div_le_iff₀ ht').mp h
  linarith

lemma zoomScaleIn_ge (th tw sh sw : ℤ) (u : ℚ) (hu : 0 ≤ u) :
    (sh : ℚ) / (th : ℚ) ≤ zoomScaleIn th tw sh sw u ∧
      (sw : ℚ) / (tw : ℚ) ≤ zoomScaleIn th tw sh sw u := by
  simp only [zoomScaleIn]
  by_cases hc : (sw : ℚ) / (tw : ℚ) < (sh : ℚ) / (th : ℚ)
  · rw [if_pos hc]
    have h1 : (sh : ℚ) / (th : ℚ) ≤ pyUniform ((sh : ℚ) / (th : ℚ))
        ((sh : ℚ) / (th : ℚ) + 3 / 2) u := pyUniform_ge_left hu (by linarith)
    exact ⟨h1, le_trans (le_of_lt hc) h1⟩
  · rw [if_neg hc]
    have h1 : (sw : ℚ) / (tw : ℚ) ≤ pyUniform ((sw : ℚ) / (tw : ℚ))
        ((sw : ℚ) / (tw : ℚ) + 3 / 2) u := pyUniform_ge_left hu (by linarith)
    exact ⟨le_trans (not_lt.mp hc) h1, h1⟩

lemma zoomInDims_ge (th tw sh sw : ℤ) (u : ℚ) (hth : 1 ≤ th) (htw : 1 ≤ tw)
    (hu : 0 ≤ u) :
    sh ≤ (zoomInDims th tw sh sw u).1 ∧ sw ≤ (zoomInDims th tw sh sw u).2 := by
  simp only [zoomInDims]
  by_cases hc : th ≤ sh ∨ tw ≤ sw
  · rw [if_pos hc]
    obtain ⟨h1, h2⟩ := zoomScaleIn_ge th tw sh sw u hu
    exact ⟨floor_ge_target (by omega) h1, floor_ge_target (by omega) h2⟩
  · rw [if_neg hc]
    push_neg at hc
    exact ⟨le_of_lt hc.1, le_of_lt hc.2⟩

lemma zoomOutDims_pos (th tw sh sw : ℤ) (u : ℚ) (hth : 1 ≤ th)
    (htw : 1 ≤ tw) (hsh : 1 ≤ sh) (hsw : 1 ≤ sw) (hu0 : 0 ≤ u) (hu1 : u ≤ 1) :
    1 ≤ (zoomOutDims th tw sh sw u).1 ∧ 1 ≤ (zoomOutDims th tw sh sw u).2 := by
  simp only [zoomOutDims]
  by_cases hc : sh < th ∨ sw < tw
  · rw [if_pos hc]
    have hthq : (0 : ℚ) < (th : ℚ) := by exact_mod_cast (by omega : (0 : ℤ) < th)
    have htwq : (0 : ℚ) < (tw : ℚ) := by exact_mod_cast (by omega : (0 : ℤ) < tw)
    have hthq1 : (1 : ℚ) ≤ (th : ℚ) := by exact_mod_cast hth
    have htwq1 : (1 : ℚ) ≤ (tw : ℚ) := by exact_mod_cast htw
    have hshq : (1 : ℚ) ≤ (sh : ℚ) := by exact_mod_cast hsh
    have hswq : (1 : ℚ) ≤ (sw : ℚ) := by exact_mod_cast hsw
    have key : (1 : ℚ) ≤ (th : ℚ) * zoomScaleOut th tw sh sw u ∧
        (1 : ℚ) ≤ (tw : ℚ) * zoomScaleOut th tw sh sw u := by
      have hhr : (sh : ℚ) = (sh : ℚ) / (th : ℚ) * (th : ℚ) :=
        (div_mul_cancel₀ _ (ne_of_gt hthq)).symm
      have hwr : (sw : ℚ) = (sw : ℚ) / (tw : ℚ) * (tw : ℚ) :=
        (div_mul_cancel₀ _ (ne_of_gt htwq)).symm
      simp only [zoomScaleOut]
      by_cases hdom : (sw : ℚ) / (tw : ℚ) < (sh : ℚ) / (th : ℚ)
      · rw [if_pos hdom]
        by_cases h65 : (sh : ℚ) / (th : ℚ) ≤ 6 / 5
        · have hs : (sh : ℚ) / (th : ℚ) ≤ pyUniform ((sh : ℚ) / (th : ℚ)) (6 / 5) u :=
            pyUniform_ge_left hu0 h65
          constructor
          · nlinarith
          · nlinarith
        · have hs : (6 : ℚ) / 5 ≤ pyUniform ((sh : ℚ) / (th : ℚ)) (6 / 5) u :=
            pyUniform_ge_right hu1 (le_of_lt (not_le.mp h65))
          constructor
          · nlinarith
          · nlinarith
      · rw [if_neg hdom]
        have hdom' := not_lt.mp hdom
        by_cases h65 : (sw : ℚ) / (tw : ℚ) ≤ 6 / 5
        · have hs : (sw : ℚ) / (tw : ℚ) ≤ pyUniform ((sw : ℚ) / (tw : ℚ)) (6 / 5) u :=
            pyUniform_ge_left hu0 h65
          constructor
          · nlinarith
          · nlinarith
        · have hs : (6 : ℚ) / 5 ≤ pyUniform ((sw : ℚ) / (tw : ℚ)) (6 / 5) u :=
            pyUniform_ge_right hu1 (le_of_lt (not_le.mp h65))
          constructor
          · nlinarith
          · nlinarith
    constructor
    · exact Int.le_floor.mpr (by push_cast; exact key.1)
    · exact Int.le_floor.mpr (by push_cast; exact key.2)
  · rw [if_neg hc]
    exact ⟨hth, htw⟩

lemma resizeDims_ge (th tw sh sw : ℤ) (u1 u2 : ℚ) (hth : 1 ≤ th)
    (htw : 1 ≤ tw) (hsh : 1 ≤ sh) (hsw : 1 ≤ sw) (hu1a : 0 ≤ u1)
    (hu1b : u1 ≤ 1) (hu2a : 0 ≤ u2) :
    sh ≤ (resizeDims th tw sh sw u1 u2).1 ∧
      sw ≤ (resizeDims th tw sh sw u1 u2).2 := by
  have hp := zoomOutDims_pos th tw sh sw u1 hth htw hsh hsw hu1a hu1b
  exact zoomInDims_ge (zoomOutDims th tw sh sw u1).1
    (zoomOutDims th tw sh sw u1).2 sh sw u2 hp.1 hp.2 hu2a

/-- C5.  For every input texture with positive dimensions and every target
shape with positive height and width, the result of PaperFactory.resize
has height at least the target height and width at least the target width
(the two uniform draws lie in `[0, 1)` as produced by `random.random`). -/
theorem C5_resize_ge_target (th tw sh sw : ℤ) (u1 u2 : ℚ) (hth : 1 ≤ th)
    (htw : 1 ≤ tw) (hsh : 1 ≤ sh) (hsw : 1 ≤ sw) (hu1a : 0 ≤ u1)
    (hu1b : u1 < 1) (hu2a : 0 ≤ u2) (hu2b : u2 < 1) :
    sh ≤ (resizeDims th tw sh sw u1 u2).1 ∧
      sw ≤ (resizeDims th tw sh sw u1 u2).2 :=
  resizeDims_ge th tw sh sw u1 u2 hth htw hsh hsw hu1a (le_of_lt hu1b) hu2a

/-- C5 witness: a 30 x 40 texture resized toward a 25 x 20 target. -/
theorem C5_resize_ge_target_witness :
    (1 : ℤ) ≤ 30 ∧ (0 : ℚ) ≤ 0 ∧ (0 : ℚ) < 1 ∧
      25 ≤ (resizeDims 30 40 25 20 0 0).1 ∧
      20 ≤ (resizeDims 30 40 25 20 0 0).2 := by
  refine ⟨by norm_num, le_refl 0, by norm_num, ?_⟩
  exact C5_resize_ge_target 30 40 25 20 0 0 (by norm_num) (by norm_num)
    (by norm_num) (by norm_num) (le_refl 0) (by norm_num) (le_refl 0)
    (by norm_num)

/-- C3 counterexample.  The claim says retrieve_texture always returns a
texture of exactly the target height and width.  For a 10 x 10
edge-cropped texture and a 20 x 20 target (all draws legal: the uniform
draws are 0 and 1/2), the strictly-larger branch is not taken, the resize
logic runs, and the result is 27 x 27, not 20 x 20: retrieve_texture has
no crop after resize. -/
theorem C3_counterexample_no_exact_crop :
    (0 : ℚ) ≤ 1 / 2 ∧ (1 / 2 : ℚ) < 1 ∧
      retrieveTextureDims 10 10 20 20 0 0 0 (1 / 2) = (27, 27) ∧
      retrieveTextureDims 10 10 20 20 0 0 0 (1 / 2) ≠ (20, 20) := by
  have hval : retrieveTextureDims 10 10 20 20 0 0 0 (1 / 2) = (27, 27) := by
    norm_num [retrieveTextureDims, resizeDims, zoomOutDims, zoomInDims,
      zoomScaleIn, pyUniform]
  refine ⟨by norm_num, by norm_num, hval, ?_⟩
  rw [hval]
  intro h
  exact absurd (congrArg Prod.fst h) (by norm_num)

/-- C3 amended.  When the rotated, edge-cropped texture is strictly larger
than the target in both axes, retrieve_texture random-crops to exactly the
target height and width; otherwise the resize logic runs with no
subsequent crop, so the result is at least as large as the target in both
axes but need not equal it. -/
theorem C3_retrieve_texture_dims (th tw sh sw cy cx : ℤ) (u1 u2 : ℚ)
    (hth : 1 ≤ th) (htw : 1 ≤ tw) (hsh : 1 ≤ sh) (hsw : 1 ≤ sw)
    (hcrop : sh < th ∧ sw < tw →
      0 ≤ cy ∧ cy ≤ th - sh ∧ 0 ≤ cx ∧ cx ≤ tw - sw)
    (hu1a : 0 ≤ u1) (hu1b : u1 < 1) (hu2a : 0 ≤ u2) (hu2b : u2 < 1) :
    (sh < th ∧ sw < tw →
      retrieveTextureDims th tw sh sw cy cx u1 u2 = (sh, sw)) ∧
    (¬ (sh < th ∧ sw < tw) →
      sh ≤ (retrieveTextureDims th tw sh sw cy cx u1 u2).1 ∧
        sw ≤ (retrieveTextureDims th tw sh sw cy cx u1 u2).2) := by
  constructor
  · intro hc
    obtain ⟨h1, h2, h3, h4⟩ := hcrop hc
    rw [retrieveTextureDims, if_pos hc]
    have hy : min (cy + sh) th = cy + sh := by omega
    have hx : min (cx + sw) tw = cx + sw := by omega
    rw [hy, hx]
    simp
  · intro hc
    rw [retrieveTextureDims, if_neg hc]
    exact resizeDims_ge th tw sh sw u1 u2 hth htw hsh hsw hu1a
      (le_of_lt hu1b) hu2a

/-- C3 witness: a 30 x 40 texture strictly larger than a 10 x 10 target is
random-cropped (draws cy = 5, cx = 7) to exactly 10 x 10; the instance
also exercises the non-strictly-larger bound through the same theorem. -/
theorem C3_retrieve_texture_dims_witness :
    ((10 : ℤ) < 30 ∧ (10 : ℤ) < 40) ∧
      retrieveTextureDims 30 40 10 10 5 7 0 0 = (10, 10) := by
  refine ⟨⟨by norm_num, by norm_num⟩, ?_⟩
  have h := C3_retrieve_texture_dims 30 40 10 10 5 7 0 0 (by norm_num)
    (by norm_num) (by norm_num) (by norm_num)
    (fun _ => ⟨by norm_num, by norm_num, by norm_num, by norm_num⟩)
    (le_refl 0) (by norm_num) (le_refl 0) (by norm_num)
  exact h.1 ⟨by norm_num, by norm_num⟩

/- ------------------------------------------------------------------ -/
/- TextureGenerator.remove_frequency (texturegenerator.py lines
   490-526), for claim C8.                                             -/
/- ------------------------------------------------------------------ -/

/-- `np.uint8` applied to a nonnegative float value: truncation toward
zero followed by reduction modulo 256. -/
def toUint8 (q : ℚ) : Nat := (⌊q⌋).toNat % 256

/-- Maximum of a list of rationals (`np.max`, with 0 for the impossible
empty image). -/
def listMax : List ℚ → ℚ
  | [] => 0
  | a :: t => t.foldl max a

/-- Minimum of a list of rationals (`np.min`, with 0 for the impossible
empty image). -/
def listMin : List ℚ → ℚ
  | [] => 0
  | a :: t => t.foldl min a

/-- The final normalization of remove_frequency (texturegenerator.py lines
521-524): min-max normalize the magnitudes to [0, 1], quantize to 8 bits
and photometrically invert.  The float code divides by `max - min` with no
guard; a zero range makes every quotient 0/0 = NaN and `np.uint8(NaN)` is
undefined, which the exact model records as failure (none). -/
def removeFrequencyNormalize (mags : List ℚ) : Option (List Nat) :=
  let mn := listMin mags
  let mx := listMax mags
  if mx - mn = 0 then none
  else some (mags.map (fun v => 255 - toUint8 ((v - mn) / (mx - mn) * 255)))

/-- The disk mask of remove_frequency (texturegenerator.py lines 501-509):
zero inside the radius-r disk around the spectrum center, one outside.
`r = random.randint(frequency, frequency)` is `frequency` itself. -/
def freqMask (ysize xsize r : Nat) (y x : Nat) : Nat :=
  let cy : ℤ := (ysize : ℤ) / 2
  let cx : ℤ := (xsize : ℤ) / 2
  if ((x : ℤ) - cx) ^ 2 + ((y : ℤ) - cy) ^ 2 ≤ (r : ℤ) ^ 2 then 0 else 1

/-- remove_frequency (texturegenerator.py lines 490-526) on a 1 x 1 input,
where the discrete Fourier transform, its inverse and the fftshift pair
are all the identity on the single sample, so the masked spectrum is the
input sample times the mask value at the center and `np.abs` of it is the
single magnitude entering the normalization. -/
def removeFrequency1x1 (v : ℚ) (frequency : Nat) : Option (List Nat) :=
  let masked := v * (freqMask 1 1 frequency 0 0 : ℚ)
  removeFrequencyNormalize [|masked|]

/-- C8.  The claim says remove_frequency guards its zero-range min-max
normalization, treating a zero denominator as identity.  No such guard
exists: on any 1 x 1 input (a constant image whose whole spectrum lies in
the removed disk, since the center bin is always inside the disk) the
masked magnitude image is uniformly 0, `max - min` is 0, and the division
on texturegenerator.py lines 521-523 is 0/0 - the function does not return
a valid texture.  The spec's section 7 requires this degenerate case to be
guarded, so the slip is in the code. -/
theorem C8_remove_frequency_no_zero_range_guard :
    ∀ (v : ℚ) (frequency : Nat), removeFrequency1x1 v frequency = none := by
  intro v frequency
  have hmask : freqMask 1 1 frequency 0 0 = 0 := by
    simp only [freqMask]
    norm_num
  rw [removeFrequency1x1, hmask]
  simp [removeFrequencyNormalize, listMin, listMax]

/- ------------------------------------------------------------------ -/
/- TextureGenerator.generate_FFT_grid (texturegenerator.py lines
   373-434), for claim C9.                                             -/
/- ------------------------------------------------------------------ -/

/-- The per-outer-pass quantization of generate_FFT_grid
(texturegenerator.py lines 425-428): min-max normalize the real part of
the inverse transform to [0, 1] and convert to uint8.  Kept for the record
that each accumulated pass image is an 8-bit image; the accumulation
itself is modelled by `fftGridAccum`. -/
def normalizeToUint8 (vals : List ℚ) : List Nat :=
  let mn := listMin vals
  let mx := listMax vals
  vals.map (fun v => toUint8 ((v - mn) / (mx - mn) * 255))

/-- The outer accumulation of generate_FFT_grid (texturegenerator.py lines
399 and 431): `wave_grid_output = np.zeros((ysize, xsize), dtype="uint8")`
and, per outer pass, `wave_grid_output += new_wave_grid` where
`new_wave_grid` is the pass's min-max-normalized uint8 inverse-FFT image.
The accumulator dtype is uint8, so numpy's `+=` wraps modulo 256.  The
per-pass FFT pipeline over floats is abstracted as the list `passes` of
per-pass 8-bit images. -/
def fftGridAccum (ysize xsize : Nat) (passes : List Img) : Img :=
  passes.foldl
    (fun acc p => ⟨ysize, xsize, fun y x => (acc.px y x + p.px y x) % 256⟩)
    ⟨ysize, xsize, fun _ _ => 0⟩

/-- C9 counterexample.  The claim says the returned grid is the exact
per-pixel arithmetic sum of the per-pass images, permitted to exceed 255.
Two outer passes whose normalized images both hold 255 at a pixel (the
maximum pixel of a normalized pass is always 255) accumulate to
(255 + 255) mod 256 = 254, not 510: the uint8 accumulator wraps. -/
theorem C9_counterexample_uint8_wraparound :
    (fftGridAccum 1 1 [Img.mk 1 1 (fun _ _ => 255),
        Img.mk 1 1 (fun _ _ => 255)]).px 0 0 = 254 ∧
      (fftGridAccum 1 1 [Img.mk 1 1 (fun _ _ => 255),
        Img.mk 1 1 (fun _ _ => 255)]).px 0 0 ≠ 255 + 255 := by
  have hval : (fftGridAccum 1 1 [Img.mk 1 1 (fun _ _ => 255),
      Img.mk 1 1 (fun _ _ => 255)]).px 0 0 = 254 := rfl
  exact ⟨hval, by rw [hval]; omega⟩

lemma fftGridAccum_fold_px (ysize xsize : Nat) (y x : Nat) :
    ∀ (passes : List Img) (acc : Img), acc.px y x < 256 →
      (passes.foldl
        (fun acc p => ⟨ysize, xsize, fun y x => (acc.px y x + p.px y x) % 256⟩)
        acc).px y x =
        (acc.px y x + (passes.map (fun p => p.px y x)).sum) % 256 := by
  intro passes
  induction passes with
  | nil =>
      intro acc hacc
      simp [Nat.mod_eq_of_lt hacc]
  | cons p t ih =>
      intro acc hacc
      simp only [List.foldl_cons, List.map_cons, List.sum_cons]
      rw [ih _ (Nat.mod_lt _ (by omega))]
      show ((acc.px y x + p.px y x) % 256 +
          (t.map (fun q => q.px y x)).sum) % 256 = _
      rw [Nat.mod_add_mod]
      omega

/-- C9 amended.  The grid returned by generate_FFT_grid is, per pixel, the
sum over outer passes of the pass's min-max-normalized 8-bit inverse-FFT
image reduced modulo 256: the accumulator is a uint8 array, so sums that
would exceed 255 wrap around instead of being preserved. -/
theorem C9_fft_grid_accumulates_mod_256 :
    ∀ (ysize xsize : Nat) (passes : List Img) (y x : Nat),
      (fftGridAccum ysize xsize passes).px y x =
        ((passes.map (fun p => p.px y x)).sum) % 256 := by
  intro ysize xsize passes y x
  have h0 : (Img.mk ysize xsize (fun _ _ => 0)).px y x < 256 := by
    show (0 : Nat) < 256
    omega
  rw [fftGridAccum, fftGridAccum_fold_px ysize xsize y x passes _ h0]
  show ((0 : Nat) + _) % 256 = _
  rw [Nat.zero_add]

/- ------------------------------------------------------------------ -/
/- TextureGenerator.quilt_texture (texturegenerator.py lines 530-613)
   and TextureGenerator.get_random_patch (lines 616-673), for claims
   C6, C7 and C10.                                                     -/
/- ------------------------------------------------------------------ -/

/-- The three channel planes of `cv2.cvtColor(image_texture,
cv2.COLOR_BGR2HSV)` as consumed by the patch searches. -/
structure HsvImg where
  hC : Nat → Nat → Nat
  sC : Nat → Nat → Nat
  vC : Nat → Nat → Nat

/-- HSV of the BGR replication of a grayscale plane: all three channels
equal, so hue = 0, saturation = 0 and value = the gray sample.  This is
the image_hsv computed on texturegenerator.py line 562 for a texture that
entered quilt_texture as single-channel (line 553 replicates the plane). -/
def grayHsv (tex : Img) : HsvImg :=
  ⟨fun _ _ => 0, fun _ _ => 0, tex.px⟩

/-- The acceptance test of the reference-patch search (texturegenerator.py
lines 571-574): the mean of the V channel over the candidate block must be
strictly between 10 and 245. -/
def refTest (hsv : HsvImg) (ps y x : Nat) : Bool :=
  decide (blockMean hsv.vC y x ps < 245 ∧ 10 < blockMean hsv.vC y x ps)

/-- The reference-patch search loop of quilt_texture (texturegenerator.py
lines 566-576): up to 10 draws of (y, x); break on the first candidate
passing `refTest`; when all 10 fail the last drawn (y, x) is left bound
and used.  `n` is the index into the draw stream `d`, `fuel` the number of
loop iterations remaining (the loop runs while n < 10, so the initial call
has fuel 10; the fuel-0 pattern is unreachable from it).  Each draw is
`np.random.randint(ysize - patch_size)` and `np.random.randint(xsize -
patch_size)`, which raises (none) on a nonpositive bound. -/
def refLoop (hsv : HsvImg) (ps : Nat) (b1 b2 : ℤ) (d : Nat → Nat × Nat) :
    Nat → Nat → Option (Nat × Nat)
  | _, 0 => none
  | n, fuel + 1 =>
      (npRandint b1 (d n).1).bind fun y =>
      (npRandint b2 (d n).2).bind fun x =>
      if refTest hsv ps y x then some (y, x)
      else if fuel = 0 then some (y, x)
      else refLoop hsv ps b1 b2 d (n + 1) fuel

/-- The donor-patch acceptance test of get_random_patch
(texturegenerator.py lines 653-660): the candidate block's mean hue,
saturation and value must each lie in the half-open target range. -/
def donorTest (hsv : HsvImg) (ps : Nat) (hR sR vR : ℚ × ℚ) (y x : Nat) :
    Bool :=
  decide (hR.1 ≤ blockMean hsv.hC y x ps ∧ blockMean hsv.hC y x ps < hR.2 ∧
    sR.1 ≤ blockMean hsv.sC y x ps ∧ blockMean hsv.sC y x ps < sR.2 ∧
    vR.1 ≤ blockMean hsv.vC y x ps ∧ blockMean hsv.vC y x ps < vR.2)

/-- The donor-patch retry loop of get_random_patch (texturegenerator.py
lines 643-671): up to 10 fresh draws; on the first candidate passing
`donorTest` return its patch gamma-corrected (`np.power(patch,
gamma).clip(0, 255)` with `gamma = log(mid * 255) / log(v_mean)`, `mid =
np.mean(v_range) / 255`; the transcendental power map is abstracted as the
externally given `gam mid vmean`, with the clip to 255 kept explicit);
when all draws fail return `init`, the patch sampled BEFORE the loop on
lines 638-640.  Iteration n consumes draw n + 1 of the stream (draw 0 is
the pre-loop sample). -/
def donorLoop (tex : Img) (hsv : HsvImg) (ps : Nat) (b1 b2 : ℤ)
    (hR sR vR : ℚ × ℚ) (gam : ℚ → ℚ → Nat → Nat) (d : Nat → Nat × Nat)
    (init : Img) : Nat → Nat → Option Img
  | _, 0 => some init
  | n, fuel + 1 =>
      (npRandint b1 (d (n + 1)).1).bind fun y =>
      (npRandint b2 (d (n + 1)).2).bind fun x =>
      if donorTest hsv ps hR sR vR y x then
        some (Img.mk ps ps (fun i j =>
          min (gam ((vR.1 + vR.2) / 2 / 255) (blockMean hsv.vC y x ps)
            (tex.px (y + i) (x + j))) 255))
      else if fuel = 0 then some init
      else donorLoop tex hsv ps b1 b2 hR sR vR gam d init (n + 1) fuel

/-- TextureGenerator.get_random_patch (texturegenerator.py lines 616-673):
sample an initial fallback patch (draw 0), then run the bounded retry loop
(draws 1 to 10).  Fails (ValueError) iff a `np.random.randint(ysize -
patch_size)` bound is nonpositive. -/
def get_random_patch (tex : Img) (hsv : HsvImg) (ps ysize xsize : Nat)
    (hR sR vR : ℚ × ℚ) (gam : ℚ → ℚ → Nat → Nat) (d : Nat → Nat × Nat) :
    Option Img :=
  (npRandint ((ysize : ℤ) - ps) (d 0).1).bind fun y0 =>
  (npRandint ((xsize : ℤ) - ps) (d 0).2).bind fun x0 =>
  donorLoop tex hsv ps ((ysize : ℤ) - ps) ((xsize : ℤ) - ps) hR sR vR gam d
    (cropImg tex y0 x0 ps) 0 10

/-- The slice assignment `image_quilt[y : y + ps, x : x + ps] =
image_patch` of texturegenerator.py line 601: later patches overwrite
earlier ones in the overlap band. -/
def placePatch (canvas : Img) (y x : Nat) (patch : Img) (ps : Nat) : Img :=
  ⟨canvas.h, canvas.w, fun i j =>
    if y ≤ i ∧ i < y + ps ∧ x ≤ j ∧ j < x + ps then patch.px (i - y) (j - x)
    else canvas.px i j⟩

/-- Clamp an integer coordinate into [0, n), modelling the border
replication of the median filter at the image edges. -/
def clampIdx (i : ℤ) (n : Nat) : Nat := (min (max i 0) ((n : ℤ) - 1)).toNat

/-- The median of a list of samples: middle element of the ascending
sort. -/
def listMedian (l : List Nat) : Nat :=
  (List.insertionSort (fun a b : Nat => a ≤ b) l).getD (l.length / 2) 0

/-- The 11 x 11 neighborhood of a pixel with replicated borders. -/
def neighborhood11 (img : Img) (y x : Nat) : List Nat :=
  ((List.range 11).map (fun a =>
    (List.range 11).map (fun b =>
      img.px (clampIdx ((y : ℤ) + a - 5) img.h)
        (clampIdx ((x : ℤ) + b - 5) img.w)))).flatten

/-- `cv2.medianBlur(image_quilt, ksize=11)` of texturegenerator.py line
604: per-pixel median of the 11 x 11 neighborhood; shape preserving. -/
def medianBlur11 (img : Img) : Img :=
  ⟨img.h, img.w, fun y x => listMedian (neighborhood11 img y x)⟩

/-- The row-major grid of output cells of the placement loop
(texturegenerator.py lines 587-588). -/
def quiltCells (nW nH : Nat) : List (Nat × Nat) :=
  ((List.range nH).map (fun i => (List.range nW).map (fun j => (i, j)))).flatten

/-- TextureGenerator.quilt_texture (texturegenerator.py lines 530-613) for
a single-channel source texture (line 553 replicates it to BGR and line
611 converts back, both identities on the plane).  `refD` is the draw
stream of the reference-patch search, `cellD k` the draw stream of the
donor search for the k-th output cell, `gam` the abstract gamma-correction
map, and `enhance` the external enhance_contrast collaborator.  Modelled
from the spec: enhance_contrast itself lives outside the two source files;
the spec gives only its contract `enhance(texture) -> Texture`, so it is a
parameter here and the theorems assume it preserves shape and the 8-bit
range (the spec's Texture invariant).  The overlap, the output canvas
size, the zero-initialised uint8 canvas, the reference search, the
per-cell donor searches with ranges at the reference means plus or minus
10, the overlapped placement and the final median filter follow the
source.  Fails (none) exactly where a `np.random.randint` bound is
nonpositive. -/
def quilt_texture (tex : Img) (ps nW nH : Nat) (refD : Nat → Nat × Nat)
    (cellD : Nat → Nat → Nat × Nat) (gam : ℚ → ℚ → Nat → Nat)
    (enhance : Img → Img) : Option Img :=
  let overlap := ps / 5
  let oy := ((nH : ℤ) * (ps : ℤ) - ((nH : ℤ) - 1) * (overlap : ℤ)).toNat
  let ox := ((nW : ℤ) * (ps : ℤ) - ((nW : ℤ) - 1) * (overlap : ℤ)).toNat
  let hsv := grayHsv tex
  let ysize := tex.h
  let xsize := tex.w
  (refLoop hsv ps ((ysize : ℤ) - (ps : ℤ)) ((xsize : ℤ) - (ps : ℤ)) refD 0
      10).bind fun ref =>
    (((quiltCells nW nH).foldl (fun acc cell =>
        acc.bind fun canvas =>
          (get_random_patch tex hsv ps ysize xsize
              (blockMean hsv.hC ref.1 ref.2 ps - 10,
                blockMean hsv.hC ref.1 ref.2 ps + 10)
              (blockMean hsv.sC ref.1 ref.2 ps - 10,
                blockMean hsv.sC ref.1 ref.2 ps + 10)
              (blockMean hsv.vC ref.1 ref.2 ps - 10,
                blockMean hsv.vC ref.1 ref.2 ps + 10)
              gam (cellD (cell.1 * nW + cell.2))).map fun patch =>
            placePatch canvas (cell.1 * (ps - overlap))
              (cell.2 * (ps - overlap)) patch ps)
      (some (Img.mk oy ox (fun _ _ => 0)))).map fun canvas =>
      enhance (medianBlur11 canvas))

lemma npRandint_pos {b : ℤ} (hb : 0 < b) (u : Nat) :
    npRandint b u = some (u % b.toNat) := by
  rw [npRandint, if_neg (not_le.mpr hb)]

lemma npRandint_nonpos {b : ℤ} (hb : b ≤ 0) (u : Nat) :
    npRandint b u = none := by
  rw [npRandint, if_pos hb]

lemma refLoop_isSome (hsv : HsvImg) (ps : Nat) (b1 b2 : ℤ)
    (d : Nat → Nat × Nat) (hb1 : 0 < b1) (hb2 : 0 < b2) :
    ∀ fuel n, fuel ≠ 0 → (refLoop hsv ps b1 b2 d n fuel).isSome = true := by
  intro fuel
  induction fuel with
  | zero => intro n h; exact absurd rfl h
  | succ f ih =>
      intro n _
      simp only [refLoop, npRandint_pos hb1, npRandint_pos hb2,
        Option.some_bind]
      by_cases ht : refTest hsv ps ((d n).1 % b1.toNat) ((d n).2 % b2.toNat)
      · rw [if_pos ht]; rfl
      · rw [if_neg ht]
        by_cases hf : f = 0
        · rw [if_pos hf]; rfl
        · rw [if_neg hf]
          exact ih (n + 1) hf

lemma donorLoop_isSome (tex : Img) (hsv : HsvImg) (ps : Nat) (b1 b2 : ℤ)
    (hR sR vR : ℚ × ℚ) (gam : ℚ → ℚ → Nat → Nat) (d : Nat → Nat × Nat)
    (init : Img) (hb1 : 0 < b1) (hb2 : 0 < b2) :
    ∀ fuel n,
      (donorLoop tex hsv ps b1 b2 hR sR vR gam d init n fuel).isSome = true := by
  intro fuel
  induction fuel with
  | zero => intro n; rfl
  | succ f ih =>
      intro n
      simp only [donorLoop, npRandint_pos hb1, npRandint_pos hb2,
        Option.some_bind]
      by_cases ht : donorTest hsv ps hR sR vR ((d (n + 1)).1 % b1.toNat)
          ((d (n + 1)).2 % b2.toNat)
      · rw [if_pos ht]; rfl
      · rw [if_neg ht]
        by_cases hf : f = 0
        · rw [if_pos hf]; rfl
        · rw [if_neg hf]
          exact ih (n + 1)

lemma get_random_patch_isSome (tex : Img) (hsv : HsvImg) (ps ysize xsize : Nat)
    (hR sR vR : ℚ × ℚ) (gam : ℚ → ℚ → Nat → Nat) (d : Nat → Nat × Nat)
    (hy : ps < ysize) (hx : ps < xsize) :
    (get_random_patch tex hsv ps ysize xsize hR sR vR gam d).isSome = true := by
  have hb1 : (0 : ℤ) < (ysize : ℤ) - (ps : ℤ) := by omega
  have hb2 : (0 : ℤ) < (xsize : ℤ) - (ps : ℤ) := by omega
  simp only [get_random_patch, npRandint_pos hb1, npRandint_pos hb2,
    Option.some_bind]
  exact donorLoop_isSome tex hsv ps _ _ hR sR vR gam d _ hb1 hb2 10 0

/-- Every patch produced by the donor loop stays in the 8-bit range: a
gamma-corrected patch is clipped to 255, and the fallback patch is a crop
of the 8-bit source. -/
lemma donorLoop_px_le (tex : Img) (hsv : HsvImg) (ps : Nat) (b1 b2 : ℤ)
    (hR sR vR : ℚ × ℚ) (gam : ℚ → ℚ → Nat → Nat) (d : Nat → Nat × Nat)
    (init : Img) (hinit : Uint8 init) :
    ∀ fuel n patch,
      donorLoop tex hsv ps b1 b2 hR sR vR gam d init n fuel = some patch →
      Uint8 patch := by
  intro fuel
  induction fuel with
  | zero =>
      intro n patch hp
      simp only [donorLoop, Option.some.injEq] at hp
      exact hp ▸ hinit
  | succ f ih =>
      intro n patch hp
      simp only [donorLoop] at hp
      rcases hb1 : npRandint b1 (d (n + 1)).1 with _ | y
      · rw [hb1] at hp; simp at hp
      rcases hb2 : npRandint b2 (d (n + 1)).2 with _ | x
      · rw [hb1, hb2] at hp; simp at hp
      rw [hb1, hb2] at hp
      simp only [Option.some_bind] at hp
      by_cases ht : donorTest hsv ps hR sR vR y x
      · rw [if_pos ht] at hp
        simp only [Option.some.injEq] at hp
        intro i j
        rw [← hp]
        exact min_le_right _ _
      · rw [if_neg ht] at hp
        by_cases hf : f = 0
        · rw [if_pos hf] at hp
          simp only [Option.some.injEq] at hp
          exact hp ▸ hinit
        · rw [if_neg hf] at hp
          exact ih (n + 1) patch hp

lemma get_random_patch_px_le (tex : Img) (hsv : HsvImg) (ps ysize xsize : Nat)
    (hR sR vR : ℚ × ℚ) (gam : ℚ → ℚ → Nat → Nat) (d : Nat → Nat × Nat)
    (htex : Uint8 tex) (patch : Img)
    (hp : get_random_patch tex hsv ps ysize xsize hR sR vR gam d = some patch) :
    Uint8 patch := by
  rw [get_random_patch] at hp
  rcases hb1 : npRandint ((ysize : ℤ) - (ps : ℤ)) (d 0).1 with _ | y0
  · rw [hb1] at hp; simp at hp
  rcases hb2 : npRandint ((xsize : ℤ) - (ps : ℤ)) (d 0).2 with _ | x0
  · rw [hb1, hb2] at hp; simp at hp
  rw [hb1, hb2] at hp
  simp only [Option.some_bind] at hp
  exact donorLoop_px_le tex hsv ps _ _ hR sR vR gam d (cropImg tex y0 x0 ps)
    (fun i j => htex (y0 + i) (x0 + j)) 10 0 patch hp

lemma placePatch_px_le (canvas patch : Img) (y x ps : Nat)
    (hc : Uint8 canvas) (hpatch : Uint8 patch) :
    Uint8 (placePatch canvas y x patch ps) := by
  intro i j
  rw [placePatch]
  by_cases hin : y ≤ i ∧ i < y + ps ∧ x ≤ j ∧ j < x + ps
  · simp only [if_pos hin]
    exact hpatch _ _
  · simp only [if_neg hin]
    exact hc _ _

lemma getD_le_255 (l : List Nat) (n : Nat) (hl : ∀ a ∈ l, a ≤ 255) :
    l.getD n 0 ≤ 255 := by
  induction l generalizing n with
  | nil => simp [List.getD]
  | cons a t ih =>
      cases n with
      | zero => simpa using hl a (by simp)
      | succ m =>
          rw [List.getD_cons_succ]
          exact ih m (fun b hb => hl b (by simp [hb]))

lemma listMedian_le_255 (l : List Nat) (hl : ∀ a ∈ l, a ≤ 255) :
    listMedian l ≤ 255 := by
  rw [listMedian]
  apply getD_le_255
  intro a ha
  exact hl a ((List.perm_insertionSort (fun a b : Nat => a ≤ b) l).mem_iff.mp ha)

attribute [irreducible] listMedian

lemma medianBlur11_px_le (img : Img) (himg : Uint8 img) :
    Uint8 (medianBlur11 img) := by
  intro y x
  show listMedian (neighborhood11 img y x) ≤ 255
  apply listMedian_le_255
  intro a ha
  simp only [neighborhood11, List.mem_flatten, List.mem_map] at ha
  obtain ⟨_, ⟨i, _, rfl⟩, hmem⟩ := ha
  simp only [List.mem_map] at hmem
  obtain ⟨j, _, rfl⟩ := hmem
  exact himg _ _

/-- The invariant carried through the cell placement fold: the accumulator
is a defined canvas of the output size with 8-bit samples. -/
lemma quiltFold_invariant (tex : Img) (hsv : HsvImg) (ps nW : Nat)
    (hR sR vR : ℚ × ℚ) (gam : ℚ → ℚ → Nat → Nat)
    (cellD : Nat → Nat → Nat × Nat) (ysize xsize : Nat) (overlap : Nat)
    (hy : ps < ysize) (hx : ps < xsize) (htex : Uint8 tex)
    (oy ox : Nat) :
    ∀ (l : List (Nat × Nat)) (acc : Option Img),
      (∃ c, acc = some c ∧ c.h = oy ∧ c.w = ox ∧ Uint8 c) →
      ∃ res, (l.foldl (fun acc cell =>
          acc.bind fun canvas =>
            (get_random_patch tex hsv ps ysize xsize hR sR vR gam
                (cellD (cell.1 * nW + cell.2))).map fun patch =>
              placePatch canvas (cell.1 * (ps - overlap))
                (cell.2 * (ps - overlap)) patch ps) acc) = some res ∧
        res.h = oy ∧ res.w = ox ∧ Uint8 res := by
  intro l
  induction l with
  | nil =>
      intro acc hacc
      obtain ⟨c, hc, h1, h2, h3⟩ := hacc
      exact ⟨c, by rw [List.foldl_nil, hc], h1, h2, h3⟩
  | cons cell t ih =>
      intro acc hacc
      obtain ⟨c, hc, h1, h2, h3⟩ := hacc
      rw [List.foldl_cons]
      apply ih
      have hgrp := get_random_patch_isSome tex hsv ps ysize xsize hR sR vR gam
        (cellD (cell.1 * nW + cell.2)) hy hx
      rcases hg : get_random_patch tex hsv ps ysize xsize hR sR vR gam
          (cellD (cell.1 * nW + cell.2)) with _ | patch
      · rw [hg] at hgrp; simp at hgrp
      refine ⟨placePatch c (cell.1 * (ps - overlap)) (cell.2 * (ps - overlap))
          patch ps, ?_, h1, h2, ?_⟩
      · simp only [hc, Option.some_bind, hg, Option.map_some']
      · exact placePatch_px_le c patch _ _ ps h3
          (get_random_patch_px_le tex hsv ps ysize xsize hR sR vR gam _ htex
            patch hg)

/-- C6.  For a single-channel 8-bit source texture strictly larger than
the patch size in both axes, quilt_texture succeeds and returns an image
of height `nH * ps - (nH - 1) * (ps / 5)` and width
`nW * ps - (nW - 1) * (ps / 5)` (overlap `ps / 5` by integer division),
with every sample in [0, 255]; `enhance` is the external enhance_contrast
collaborator, assumed shape- and range-preserving as its spec contract
`enhance(texture) -> Texture` requires. -/
theorem C6_quilt_dims_and_range (tex : Img) (ps nW nH : Nat)
    (refD : Nat → Nat × Nat) (cellD : Nat → Nat → Nat × Nat)
    (gam : ℚ → ℚ → Nat → Nat) (enhance : Img → Img)
    (hy : ps < tex.h) (hx : ps < tex.w) (htex : Uint8 tex)
    (hnH : 1 ≤ nH) (hnW : 1 ≤ nW)
    (henhShape : ∀ img, (enhance img).h = img.h ∧ (enhance img).w = img.w)
    (henhRange : ∀ img, Uint8 img → Uint8 (enhance img)) :
    ∃ out, quilt_texture tex ps nW nH refD cellD gam enhance = some out ∧
      out.h = nH * ps - (nH - 1) * (ps / 5) ∧
      out.w = nW * ps - (nW - 1) * (ps / 5) ∧ Uint8 out := by
  have hb1 : (0 : ℤ) < (tex.h : ℤ) - (ps : ℤ) := by omega
  have hb2 : (0 : ℤ) < (tex.w : ℤ) - (ps : ℤ) := by omega
  have hov : ps / 5 ≤ ps := Nat.div_le_self ps 5
  have hoy : ((nH : ℤ) * (ps : ℤ) - ((nH : ℤ) - 1) * ((ps / 5 : Nat) : ℤ)).toNat
      = nH * ps - (nH - 1) * (ps / 5) := by
    have hle : (nH - 1) * (ps / 5) ≤ nH * ps :=
      Nat.mul_le_mul (Nat.sub_le nH 1) hov
    have hcast : ((nH : ℤ) - 1) = ((nH - 1 : Nat) : ℤ) := by omega
    have h2 : (nH : ℤ) * (ps : ℤ) = ((nH * ps : Nat) : ℤ) := by push_cast; ring
    have h3 : ((nH - 1 : Nat) : ℤ) * ((ps / 5 : Nat) : ℤ) =
        (((nH - 1) * (ps / 5) : Nat) : ℤ) := by push_cast; ring
    rw [hcast, h2, h3]
    omega
  have hox : ((nW : ℤ) * (ps : ℤ) - ((nW : ℤ) - 1) * ((ps / 5 : Nat) : ℤ)).toNat
      = nW * ps - (nW - 1) * (ps / 5) := by
    have hle : (nW - 1) * (ps / 5) ≤ nW * ps :=
      Nat.mul_le_mul (Nat.sub_le nW 1) hov
    have hcast : ((nW : ℤ) - 1) = ((nW - 1 : Nat) : ℤ) := by omega
    have h2 : (nW : ℤ) * (ps : ℤ) = ((nW * ps : Nat) : ℤ) := by push_cast; ring
    have h3 : ((nW - 1 : Nat) : ℤ) * ((ps / 5 : Nat) : ℤ) =
        (((nW - 1) * (ps / 5) : Nat) : ℤ) := by push_cast; ring
    rw [hcast, h2, h3]
    omega
  have href := refLoop_isSome (grayHsv tex) ps ((tex.h : ℤ) - (ps : ℤ))
    ((tex.w : ℤ) - (ps : ℤ)) refD hb1 hb2 10 0 (by omega)
  rcases hr : refLoop (grayHsv tex) ps ((tex.h : ℤ) - (ps : ℤ))
      ((tex.w : ℤ) - (ps : ℤ)) refD 0 10 with _ | ref
  · rw [hr] at href; simp at href
  obtain ⟨res, hres, hresh, hresw, hresu⟩ :=
    quiltFold_invariant tex (grayHsv tex) ps nW
      (blockMean (grayHsv tex).hC ref.1 ref.2 ps - 10,
        blockMean (grayHsv tex).hC ref.1 ref.2 ps + 10)
      (blockMean (grayHsv tex).sC ref.1 ref.2 ps - 10,
        blockMean (grayHsv tex).sC ref.1 ref.2 ps + 10)
      (blockMean (grayHsv tex).vC ref.1 ref.2 ps - 10,
        blockMean (grayHsv tex).vC ref.1 ref.2 ps + 10)
      gam cellD tex.h tex.w (ps / 5) hy hx htex
      (((nH : ℤ) * (ps : ℤ) - ((nH : ℤ) - 1) * ((ps / 5 : Nat) : ℤ)).toNat)
      (((nW : ℤ) * (ps : ℤ) - ((nW : ℤ) - 1) * ((ps / 5 : Nat) : ℤ)).toNat)
      (quiltCells nW nH)
      (some (Img.mk
        (((nH : ℤ) * (ps : ℤ) - ((nH : ℤ) - 1) * ((ps / 5 : Nat) : ℤ)).toNat)
        (((nW : ℤ) * (ps : ℤ) - ((nW : ℤ) - 1) * ((ps / 5 : Nat) : ℤ)).toNat)
        (fun _ _ => 0)))
      ⟨Img.mk
        (((nH : ℤ) * (ps : ℤ) - ((nH : ℤ) - 1) * ((ps / 5 : Nat) : ℤ)).toNat)
        (((nW : ℤ) * (ps : ℤ) - ((nW : ℤ) - 1) * ((ps / 5 : Nat) : ℤ)).toNat)
        (fun _ _ => 0), rfl, rfl, rfl, fun _ _ => Nat.zero_le 255⟩
  refine ⟨enhance (medianBlur11 res), ?_, ?_, ?_, ?_⟩
  · simp only [quilt_texture, hr, Option.some_bind]
    rw [hres]
    rfl
  · rw [(henhShape (medianBlur11 res)).1]
    show res.h = _
    rw [hresh]
    exact hoy
  · rw [(henhShape (medianBlur11 res)).2]
    show res.w = _
    rw [hresw]
    exact hox
  · exact henhRange _ (medianBlur11_px_le res hresu)

/-- C6 witness: quilting a 100 x 100 uniform-gray (value 128) texture with
patch size 20 and a 3 x 3 patch grid yields a 52 x 52 image with all
samples in [0, 255] (enhance_contrast instantiated with the identity,
which satisfies the contract). -/
theorem C6_quilt_dims_and_range_witness :
    20 < 100 ∧ (1 : Nat) ≤ 3 ∧
      ∃ out, quilt_texture (Img.mk 100 100 (fun _ _ => 128)) 20 3 3
          (fun _ => (0, 0)) (fun _ _ => (0, 0)) (fun _ _ p => p)
          (fun img => img) = some out ∧
        out.h = 52 ∧ out.w = 52 ∧ Uint8 out := by
  refine ⟨by omega, by omega, ?_⟩
  obtain ⟨out, h1, h2, h3, h4⟩ := C6_quilt_dims_and_range
    (Img.mk 100 100 (fun _ _ => 128)) 20 3 3 (fun _ => (0, 0))
    (fun _ _ => (0, 0)) (fun _ _ p => p) (fun img => img)
    (by show (20 : Nat) < 100; omega) (by show (20 : Nat) < 100; omega)
    (fun _ _ => by show (128 : Nat) ≤ 255; omega) (by omega) (by omega)
    (fun img => ⟨rfl, rfl⟩) (fun img h => h)
  refine ⟨out, h1, ?_, ?_, h4⟩
  · rw [h2]
  · rw [h3]

/-- When every candidate of the donor retry loop fails the acceptance
test, the loop returns its `init` argument - the patch sampled before the
loop - untouched. -/
lemma donorLoop_all_fail (tex : Img) (hsv : HsvImg) (ps : Nat) (b1 b2 : ℤ)
    (hR sR vR : ℚ × ℚ) (gam : ℚ → ℚ → Nat → Nat) (d : Nat → Nat × Nat)
    (init : Img) (hb1 : 0 < b1) (hb2 : 0 < b2) :
    ∀ fuel n,
      (∀ k, n ≤ k → k < n + fuel →
        donorTest hsv ps hR sR vR ((d (k + 1)).1 % b1.toNat)
          ((d (k + 1)).2 % b2.toNat) = false) →
      donorLoop tex hsv ps b1 b2 hR sR vR gam d init n fuel = some init := by
  intro fuel
  induction fuel with
  | zero => intro n _; rfl
  | succ f ih =>
      intro n hfail
      have ht := hfail n (le_refl n) (by omega)
      have hcond : ¬ (donorTest hsv ps hR sR vR ((d (n + 1)).1 % b1.toNat)
          ((d (n + 1)).2 % b2.toNat) = true) := by
        rw [ht]; simp
      simp only [donorLoop, npRandint_pos hb1, npRandint_pos hb2,
        Option.some_bind]
      rw [if_neg hcond]
      by_cases hf : f = 0
      · rw [if_pos hf]
      · rw [if_neg hf]
        exact ih (n + 1) (fun k hk1 hk2 => hfail k (by omega) (by omega))

/-- C7 amended.  When the bounds are positive and all 10 loop candidates
(draws 1 to 10) fail the H/S/V range test, get_random_patch returns the
patch at the location sampled BEFORE the loop (draw 0), uncorrected - not
the last sampled candidate. -/
theorem C7_fallback_is_presample (tex : Img) (hsv : HsvImg)
    (ps ysize xsize : Nat) (hR sR vR : ℚ × ℚ) (gam : ℚ → ℚ → Nat → Nat)
    (d : Nat → Nat × Nat) (hy : ps < ysize) (hx : ps < xsize)
    (hfail : ∀ k, k < 10 →
      donorTest hsv ps hR sR vR ((d (k + 1)).1 % (ysize - ps))
        ((d (k + 1)).2 % (xsize - ps)) = false) :
    get_random_patch tex hsv ps ysize xsize hR sR vR gam d =
      some (cropImg tex ((d 0).1 % (ysize - ps)) ((d 0).2 % (xsize - ps))
        ps) := by
  have hb1 : (0 : ℤ) < (ysize : ℤ) - (ps : ℤ) := by omega
  have hb2 : (0 : ℤ) < (xsize : ℤ) - (ps : ℤ) := by omega
  have htn1 : ((ysize : ℤ) - (ps : ℤ)).toNat = ysize - ps := by omega
  have htn2 : ((xsize : ℤ) - (ps : ℤ)).toNat = xsize - ps := by omega
  simp only [get_random_patch, npRandint_pos hb1, npRandint_pos hb2,
    Option.some_bind]
  rw [htn1, htn2]
  apply donorLoop_all_fail tex hsv ps _ _ hR sR vR gam d _ hb1 hb2 10 0
  intro k _ hk2
  rw [htn1, htn2]
  exact hfail k (by omega)

/-- A 3 x 3 test texture with pairwise distinct samples 0, 10, ..., 80. -/
def texC7 : Img := ⟨3, 3, fun y x => 10 * (3 * y + x)⟩

/-- A draw stream whose pre-loop sample is at (0, 0) and whose ten loop
candidates are all at (1, 1). -/
def dC7 : Nat → Nat × Nat := fun n => if n = 0 then (0, 0) else (1, 1)

lemma donorTestC7_false (y x : Nat) (hy : y < 3) (hx : x < 3) :
    donorTest (grayHsv texC7) 1 (-10, 10) (-10, 10) (1000, 2000) y x =
      false := by
  apply decide_eq_false
  rintro ⟨-, -, -, -, hv, -⟩
  have hbm : blockMean (grayHsv texC7).vC y x 1 = ((texC7.px y x : Nat) : ℚ) := by
    simp [blockMean, blockSum, grayHsv]
  rw [hbm] at hv
  have hle : texC7.px y x ≤ 80 := by
    show 10 * (3 * y + x) ≤ 80
    omega
  have hleq : ((texC7.px y x : Nat) : ℚ) ≤ 80 := by exact_mod_cast hle
  have hv1000 : (1000 : ℚ) ≤ ((texC7.px y x : Nat) : ℚ) := hv
  linarith

lemma donorTestC7_allFail : ∀ k, k < 10 →
    donorTest (grayHsv texC7) 1 (-10, 10) (-10, 10) (1000, 2000)
      ((dC7 (k + 1)).1 % (3 - 1)) ((dC7 (k + 1)).2 % (3 - 1)) = false := by
  intro k _
  have hd : dC7 (k + 1) = (1, 1) := by simp [dC7]
  rw [hd]
  show donorTest (grayHsv texC7) 1 (-10, 10) (-10, 10) (1000, 2000) 1 1 =
    false
  exact donorTestC7_false 1 1 (by omega) (by omega)

lemma grpC7_eq :
    get_random_patch texC7 (grayHsv texC7) 1 3 3 (-10, 10) (-10, 10)
      (1000, 2000) (fun _ _ p => p) dC7 = some (cropImg texC7 0 0 1) := by
  have hb1 : (0 : ℤ) < ((3 : Nat) : ℤ) - ((1 : Nat) : ℤ) := by norm_num
  simp only [get_random_patch, npRandint_pos hb1, Option.some_bind]
  have hres := donorLoop_all_fail texC7 (grayHsv texC7) 1
    (((3 : Nat) : ℤ) - ((1 : Nat) : ℤ)) (((3 : Nat) : ℤ) - ((1 : Nat) : ℤ))
    (-10, 10) (-10, 10) (1000, 2000) (fun _ _ p => p) dC7
    (cropImg texC7 ((dC7 0).1 % (((3 : Nat) : ℤ) - ((1 : Nat) : ℤ)).toNat)
      ((dC7 0).2 % (((3 : Nat) : ℤ) - ((1 : Nat) : ℤ)).toNat) 1)
    hb1 hb1 10 0 ?_
  · rw [hres]
    rfl
  · intro k _ hk2
    have hd : dC7 (k + 1) = (1, 1) := by simp [dC7]
    rw [hd]
    show donorTest (grayHsv texC7) 1 (-10, 10) (-10, 10) (1000, 2000) 1 1 =
      false
    exact donorTestC7_false 1 1 (by omega) (by omega)

/-- C7 counterexample.  The claim says that when all 10 candidates fail
the range test the fallback is the LAST sampled patch.  With draws whose
pre-loop sample sits at (0, 0) and whose loop candidates all sit at
(1, 1), every candidate fails (the target value range [1000, 2000) is
unreachable for 8-bit data), and the returned patch is the one at (0, 0)
(sample value 0), not the last sampled patch at (1, 1) (sample value 40):
the fallback bound on texturegenerator.py line 640 is assigned before the
loop and never updated by failing iterations. -/
theorem C7_counterexample_fallback_not_last :
    (∀ k, k < 10 →
      donorTest (grayHsv texC7) 1 (-10, 10) (-10, 10) (1000, 2000)
        ((dC7 (k + 1)).1 % (3 - 1)) ((dC7 (k + 1)).2 % (3 - 1)) = false) ∧
      (get_random_patch texC7 (grayHsv texC7) 1 3 3 (-10, 10) (-10, 10)
          (1000, 2000) (fun _ _ p => p) dC7).map (fun p => p.px 0 0) ≠
        some ((cropImg texC7 ((dC7 10).1 % (3 - 1)) ((dC7 10).2 % (3 - 1))
          1).px 0 0) := by
  refine ⟨donorTestC7_allFail, ?_⟩
  rw [grpC7_eq]
  decide

/-- C7 witness: the amended fallback applied at the same concrete input -
the returned patch is the pre-loop sample at (0, 0). -/
theorem C7_fallback_is_presample_witness :
    1 < 3 ∧
      get_random_patch texC7 (grayHsv texC7) 1 3 3 (-10, 10) (-10, 10)
          (1000, 2000) (fun _ _ p => p) dC7 = some (cropImg texC7 0 0 1) := by
  refine ⟨by omega, ?_⟩
  have h := C7_fallback_is_presample texC7 (grayHsv texC7) 1 3 3 (-10, 10)
    (-10, 10) (1000, 2000) (fun _ _ p => p) dC7 (by omega) (by omega)
    donorTestC7_allFail
  exact h

/-- The cell placement fold keeps a defined accumulator defined. -/
lemma quiltFold_isSome (tex : Img) (hsv : HsvImg) (ps nW : Nat)
    (hR sR vR : ℚ × ℚ) (gam : ℚ → ℚ → Nat → Nat)
    (cellD : Nat → Nat → Nat × Nat) (ysize xsize : Nat) (overlap : Nat)
    (hy : ps < ysize) (hx : ps < xsize) :
    ∀ (l : List (Nat × Nat)) (acc : Option Img), acc.isSome = true →
      ((l.foldl (fun acc cell =>
          acc.bind fun canvas =>
            (get_random_patch tex hsv ps ysize xsize hR sR vR gam
                (cellD (cell.1 * nW + cell.2))).map fun patch =>
              placePatch canvas (cell.1 * (ps - overlap))
                (cell.2 * (ps - overlap)) patch ps) acc)).isSome = true := by
  intro l
  induction l with
  | nil => intro acc hacc; simpa using hacc
  | cons cell t ih =>
      intro acc hacc
      rw [List.foldl_cons]
      apply ih
      rcases hc : acc with _ | c
      · rw [hc] at hacc; simp at hacc
      have hgrp := get_random_patch_isSome tex hsv ps ysize xsize hR sR vR gam
        (cellD (cell.1 * nW + cell.2)) hy hx
      rcases hg : get_random_patch tex hsv ps ysize xsize hR sR vR gam
          (cellD (cell.1 * nW + cell.2)) with _ | patch
      · rw [hg] at hgrp; simp at hgrp
      simp only [Option.some_bind, hg, Option.map_some', Option.isSome_some]

/-- C10.  quilt_texture returns normally exactly when both source texture
dimensions strictly exceed the patch size: otherwise the very first
`np.random.randint(dimension - patch_size)` draw (and likewise every later
one, in the reference search and in get_random_patch) has a nonpositive
exclusive bound and raises ValueError. -/
theorem C10_quilt_requires_dims_gt_patch (tex : Img) (ps nW nH : Nat)
    (refD : Nat → Nat × Nat) (cellD : Nat → Nat → Nat × Nat)
    (gam : ℚ → ℚ → Nat → Nat) (enhance : Img → Img) :
    (quilt_texture tex ps nW nH refD cellD gam enhance).isSome = true ↔
      (ps < tex.h ∧ ps < tex.w) := by
  constructor
  · intro hs
    by_contra hc
    have hnone : refLoop (grayHsv tex) ps ((tex.h : ℤ) - (ps : ℤ))
        ((tex.w : ℤ) - (ps : ℤ)) refD 0 10 = none := by
      rcases not_and_or.mp hc with h | h
      · have hb : (tex.h : ℤ) - (ps : ℤ) ≤ 0 := by omega
        simp only [refLoop, npRandint_nonpos hb, Option.none_bind]
      · have hb : (tex.w : ℤ) - (ps : ℤ) ≤ 0 := by omega
        rcases le_or_lt ((tex.h : ℤ) - (ps : ℤ)) 0 with hb1 | hb1
        · simp only [refLoop, npRandint_nonpos hb1, Option.none_bind]
        · simp only [refLoop, npRandint_pos hb1, Option.some_bind,
            npRandint_nonpos hb, Option.none_bind]
    rw [quilt_texture] at hs
    simp only [hnone, Option.none_bind, Option.isSome_none] at hs
    exact absurd hs (by decide)
  · rintro ⟨hy, hx⟩
    have hb1 : (0 : ℤ) < (tex.h : ℤ) - (ps : ℤ) := by omega
    have hb2 : (0 : ℤ) < (tex.w : ℤ) - (ps : ℤ) := by omega
    have href := refLoop_isSome (grayHsv tex) ps ((tex.h : ℤ) - (ps : ℤ))
      ((tex.w : ℤ) - (ps : ℤ)) refD hb1 hb2 10 0 (by omega)
    rcases hr : refLoop (grayHsv tex) ps ((tex.h : ℤ) - (ps : ℤ))
        ((tex.w : ℤ) - (ps : ℤ)) refD 0 10 with _ | ref
    · rw [hr] at href; simp at href
    have hfold := quiltFold_isSome tex (grayHsv tex) ps nW
      (blockMean (grayHsv tex).hC ref.1 ref.2 ps - 10,
        blockMean (grayHsv tex).hC ref.1 ref.2 ps + 10)
      (blockMean (grayHsv tex).sC ref.1 ref.2 ps - 10,
        blockMean (grayHsv tex).sC ref.1 ref.2 ps + 10)
      (blockMean (grayHsv tex).vC ref.1 ref.2 ps - 10,
        blockMean (grayHsv tex).vC ref.1 ref.2 ps + 10)
      gam cellD tex.h tex.w (ps / 5) hy hx (quiltCells nW nH)
      (some (Img.mk
        (((nH : ℤ) * (ps : ℤ) - ((nH : ℤ) - 1) * ((ps / 5 : Nat) : ℤ)).toNat)
        (((nW : ℤ) * (ps : ℤ) - ((nW : ℤ) - 1) * ((ps / 5 : Nat) : ℤ)).toNat)
        (fun _ _ => 0))) rfl
    rcases hf : ((quiltCells nW nH).foldl (fun acc cell =>
        acc.bind fun canvas =>
          (get_random_patch tex (grayHsv tex) ps tex.h tex.w
              (blockMean (grayHsv tex).hC ref.1 ref.2 ps - 10,
                blockMean (grayHsv tex).hC ref.1 ref.2 ps + 10)
              (blockMean (grayHsv tex).sC ref.1 ref.2 ps - 10,
                blockMean (grayHsv tex).sC ref.1 ref.2 ps + 10)
              (blockMean (grayHsv tex).vC ref.1 ref.2 ps - 10,
                blockMean (grayHsv tex).vC ref.1 ref.2 ps + 10)
              gam (cellD (cell.1 * nW + cell.2))).map fun patch =>
            placePatch canvas (cell.1 * (ps - ps / 5))
              (cell.2 * (ps - ps / 5)) patch ps)
      (some (Img.mk
        (((nH : ℤ) * (ps : ℤ) - ((nH : ℤ) - 1) * ((ps / 5 : Nat) : ℤ)).toNat)
        (((nW : ℤ) * (ps : ℤ) - ((nW : ℤ) - 1) * ((ps / 5 : Nat) : ℤ)).toNat)
        (fun _ _ => 0)))) with _ | res
    · rw [hf] at hfold; simp at hfold
    simp only [quilt_texture, hr, Option.some_bind, hf, Option.map_some',
      Option.isSome_some]

end Augraphy
